import Mathlib

/-!
Verification of the socket-table resolution engine of the pid-port package.

The definitions below are a shallow embedding of the JavaScript source
(`index.js` of pid-port): JS strings are Lean `String`s (compared by code
units via their character lists), JS `undefined` flowing through a
string-typed position is `Option String`, JS numbers that the code has
validated to be integers are `Int`/`Nat`, thrown exceptions are `Except`,
and the external command runner is an explicit parameter.  The JS `Map`
is an insertion-ordered association list with `mapSet` mirroring
`Map.prototype.set` (update in place, else append).  The source's
`localeCompare` is locale-dependent ICU collation, which is a property of
the host environment rather than of the program text; the model substitutes
a fixed executable total order (`lexCmp`, code-unit comparison) as a
stand-in, and no theorem below depends on which order that stand-in yields:
sort results enter the theorems only up to permutation, or through
two-element sorts decided entirely by the exactly-modelled
`startsWith('127.0.0.1')`/`startsWith('::1')` special cases.
-/

/-- JavaScript whitespace characters recognised by the regex class `\s`
(restricted to the ASCII range, which is all that socket-table text contains). -/
def isJsSpace (c : Char) : Bool :=
  c = ' ' || c = '\t' || c = '\n' || c = '\r' || c = '\x0b' || c = '\x0c'

/-- JS coercion of a possibly-`undefined` value to a string, as performed by
`RegExp.prototype.test`/`exec` and template literals: `undefined` becomes the
string `"undefined"`. -/
def jsToStr : Option String → String
  | some s => s
  | none => "undefined"

/-- Indexing `row[i]` on a JS array: out-of-range access yields `undefined`. -/
def getTok (row : List String) (i : Nat) : Option String :=
  row[i]?

/-- Model of `String.prototype.startsWith` (a code-unit test). -/
def jsStartsWith (s pre : String) : Bool :=
  pre.data.isPrefixOf s.data

/-- Model of `String.prototype.endsWith` (a code-unit test). -/
def jsEndsWith (s suf : String) : Bool :=
  suf.data.isSuffixOf s.data

/-- Strip a literal prefix from a character list, returning the remainder. -/
def stripPrefixList : List Char → List Char → Option (List Char)
  | [], cs => some cs
  | _ :: _, [] => none
  | p :: ps, c :: cs => if p = c then stripPrefixList ps cs else none

/-- Model of `Number.parseInt(s, 10)` on a run of decimal digits. -/
def digitsToNat (ds : List Char) : Nat :=
  ds.foldl (fun n c => n * 10 + (c.toNat - 48)) 0

/-- Source: `stripIpv6Brackets`.  `host?.startsWith('[') && host.endsWith(']')
? host.slice(1, -1) : host` (the `undefined` case is handled at the callers
via `Option.map`, since `undefined` flows through every branch unchanged). -/
def stripIpv6Brackets (host : String) : String :=
  if jsStartsWith host "[" && jsEndsWith host "]" then
    String.mk ((host.data.drop 1).dropLast)
  else host

/-- Source: `normalizeHost`.  Bracket stripping, then the three literal
rewrites `localhost` / `::ffff:127.0.0.1` / `::`. -/
def normalizeHost (host : String) : String :=
  if stripIpv6Brackets host = "localhost" then "127.0.0.1"
  else if stripIpv6Brackets host = "::ffff:127.0.0.1" then "127.0.0.1"
  else if stripIpv6Brackets host = "::" then "*"
  else stripIpv6Brackets host

/-- One parsed address: the result shape of the source's `parseAddress`.
`host` is `none` when the JS value would be `undefined`. -/
structure Address where
  host : Option String
  port : Option Nat
deriving DecidableEq, Repr

/-- The regex `^(?<host>.+?)[.:](?<port>\d+)$` of `parseAddress`: the lazy
`.+?` takes the shortest nonempty prefix (of non-line-terminator characters)
that is followed by `.` or `:` and then digits running to the end of the
string.  `acc` holds the host characters scanned so far, reversed. -/
def splitAddr : List Char → List Char → Option (List Char × List Char)
  | _, [] => none
  | acc, c :: rest =>
    if (c = '.' || c = ':') && !acc.isEmpty && !rest.isEmpty && rest.all Char.isDigit then
      some (acc.reverse, rest)
    else if c = '\n' || c = '\r' then none
    else splitAddr (c :: acc) rest

/-- Source: `parseAddress`.  On a regex match the host group is normalized
and the port parsed; otherwise the whole (possibly `undefined`) token is the
raw host and the port is absent. -/
def parseAddress (address : Option String) : Address :=
  match splitAddr [] (jsToStr address).data with
  | some (h, ds) => { host := some (normalizeHost (String.mk h)), port := some (digitsToNat ds) }
  | none => { host := address.map normalizeHost, port := none }

/-- Source: `isLocalhostAddress`. -/
def isLocalhostAddress (host : Option String) : Bool :=
  host == some "127.0.0.1" || host == some "::1"

/-- Tagged host filter: `{type: 'all' | 'localhost' | 'specific'}`. -/
inductive HostFilter where
  | all
  | localhost
  | specific (host : String)
deriving DecidableEq, Repr

/-- Source: `createHostFilter`.  Absent host means localhost-only; a host
normalizing to `*`, `0.0.0.0` or `::` means all interfaces; anything else is
an exact-host filter on the normalized host. -/
def createHostFilter (host : Option String) : HostFilter :=
  match host with
  | none => HostFilter.localhost
  | some h =>
    if normalizeHost h = "*" || normalizeHost h = "0.0.0.0" || normalizeHost h = "::" then
      HostFilter.all
    else HostFilter.specific (normalizeHost h)

/-- Source: `applyHostFilter`.  The specific-host case is plain string
equality on the normalized parsed host; `undefined` never equals a string. -/
def applyHostFilter (lines : List (List String)) (addressColumn : Nat)
    (hostFilter : HostFilter) : List (List String) :=
  match hostFilter with
  | HostFilter.all => lines
  | HostFilter.localhost =>
    lines.filter fun line => isLocalhostAddress (parseAddress (getTok line addressColumn)).host
  | HostFilter.specific h =>
    lines.filter fun line => (parseAddress (getTok line addressColumn)).host == some h

/-- The regex `/pid=(?<pid>\d+)/` of `parsePid` (Linux `ss` shape): leftmost
occurrence of the literal `pid=` followed by at least one digit; the capture
is the maximal digit run there. -/
def pidEqScan : List Char → Option Nat
  | [] => none
  | c :: rest =>
    match stripPrefixList "pid=".data (c :: rest) with
    | some tail =>
      let ds := tail.takeWhile Char.isDigit
      if ds.isEmpty then pidEqScan rest else some (digitsToNat ds)
    | none => pidEqScan rest

/-- The character class `[A-Za-z]`. -/
def isAsciiLetter (c : Char) : Bool :=
  ('A' ≤ c && c ≤ 'Z') || ('a' ≤ c && c ≤ 'z')

/-- A digit run (at least one) starting here; the `(?<pid>\d+)` capture. -/
def digitsAfter (tail : List Char) : Option Nat :=
  let ds := tail.takeWhile Char.isDigit
  if ds.isEmpty then none else some (digitsToNat ds)

/-- One attempt of the macOS regex
`/(?:^|",|",pid=|[A-Za-z]+:)(?<pid>\d+)/` at a fixed position: the four
alternatives in source order, each followed by the digit capture.
`atStart` tells whether `^` can match here. -/
def macAltAt (atStart : Bool) (cs : List Char) : Option Nat :=
  match (if atStart then digitsAfter cs else none) with
  | some n => some n
  | none =>
    match (match stripPrefixList ['"', ','] cs with
           | some t => digitsAfter t
           | none => none) with
    | some n => some n
    | none =>
      match (match stripPrefixList ('"' :: ",pid=".data) cs with
             | some t => digitsAfter t
             | none => none) with
      | some n => some n
      | none =>
        let ls := cs.takeWhile isAsciiLetter
        if ls.isEmpty then none
        else
          match cs.drop ls.length with
          | ':' :: t => digitsAfter t
          | _ => none

/-- Left-to-right scan of the macOS regex over the token. -/
def macScan : Bool → List Char → Option Nat
  | atStart, [] => macAltAt atStart []
  | atStart, c :: rest =>
    match macAltAt atStart (c :: rest) with
    | some n => some n
    | none => macScan false rest

/-- Source: `parsePid`.  Non-strings (including `undefined`) yield absent;
otherwise the Linux, macOS and Windows grammars are tried in order. -/
def parsePid (pid : Option String) : Option Nat :=
  match pid with
  | none => none
  | some s =>
    match pidEqScan s.data with
    | some n => some n
    | none =>
      match macScan true s.data with
      | some n => some n
      | none =>
        if !s.data.isEmpty && s.data.all Char.isDigit then some (digitsToNat s.data)
        else none

/-- The dynamic regex `` new RegExp(`[.:]${port}$`) `` of `filterPortLines`:
the token ends in the decimal digits of `port` immediately preceded by `.`
or `:`.  `RegExp.test` coerces `undefined` to the string `"undefined"`. -/
def portRegexTest (port : Nat) (tok : Option String) : Bool :=
  match stripPrefixList (Nat.repr port).data.reverse (jsToStr tok).data.reverse with
  | some (c :: _) => c = '.' || c = ':'
  | _ => false

/-- A fixed executable total order on character lists (code-unit
comparison, as a JS-style negative/zero/positive integer), used as a
stand-in for `String.prototype.localeCompare`, whose actual behaviour is
locale-dependent ICU collation and so not a function of the source.  The
theorems below use the sort it feeds only up to permutation or on
two-element lists decided by the hard-coded prefix branches, so none of
them depends on this choice. -/
def lexCmp : List Char → List Char → Int
  | [], [] => 0
  | [], _ :: _ => -1
  | _ :: _, [] => 1
  | a :: as, b :: bs =>
    if a.toNat < b.toNat then -1
    else if b.toNat < a.toNat then 1
    else lexCmp as bs

/-- Stand-in for `a.localeCompare(b)`; see the caveat on `lexCmp`. -/
def localeCompareInt (a b : String) : Int :=
  lexCmp a.data b.data

/-- The comparator body of `sortByHostPriority`: IPv4-localhost-prefixed
addresses before IPv6-localhost-prefixed ones, otherwise `localeCompare`
(here its stand-in `localeCompareInt`; see `lexCmp`). -/
def hostPriorityCompare (a b : String) : Int :=
  if jsStartsWith a "127.0.0.1" && jsStartsWith b "::1" then -1
  else if jsStartsWith a "::1" && jsStartsWith b "127.0.0.1" then 1
  else localeCompareInt a b

/-- Stable insertion of one element with respect to a JS comparator:
the element goes before the first list member it does not compare
strictly greater than, keeping the original order of ties. -/
def insertByCompare (c : α → α → Int) (x : α) : List α → List α
  | [] => [x]
  | y :: ys => if c x y ≤ 0 then x :: y :: ys else y :: insertByCompare c x ys

/-- Stable sort by a JS comparator.  `Array.prototype.sort` is stable, so
for a consistent comparator any stable sorting algorithm produces the same
list; for an inconsistent one ECMAScript leaves the order
implementation-defined, and the theorems below accordingly use this sort
only up to permutation or on two-element lists (where a single comparison
decides the order in any implementation). -/
def sortByCompare (c : α → α → Int) : List α → List α
  | [] => []
  | x :: xs => insertByCompare c x (sortByCompare c xs)

/-- Source: `sortByHostPriority(items, getAddress)`. -/
def sortByHostPriority (items : List α) (getAddress : α → String) : List α :=
  sortByCompare (fun x y => hostPriorityCompare (getAddress x) (getAddress y)) items

/-- A parsed socket table: the tokenized protocol rows together with the
column indices of the address and PID tokens, as returned by `getList`. -/
structure ParsedTable where
  lines : List (List String)
  addressColumn : Nat
  pidColumn : Nat
deriving DecidableEq, Repr

/-- The regex `/^\s*(tcp|udp)/i` of `isProtocol`: leading whitespace then
`tcp` or `udp`, case-insensitively. -/
def prefixCI : List Char → List Char → Bool
  | [], _ => true
  | _ :: _, [] => false
  | p :: ps, c :: cs => (c.toLower = p) && prefixCI ps cs

/-- Source: `isProtocol`. -/
def isProtocol (s : String) : Bool :=
  let rest := s.data.dropWhile isJsSpace
  prefixCI "tcp".data rest || prefixCI "udp".data rest

/-- Tokenization `line.match(/\S+/g) || []`: split one line into maximal runs of
non-whitespace characters.  `acc` holds the current token, reversed. -/
def splitTokensAux : List Char → List Char → List (List Char)
  | acc, [] => if acc.isEmpty then [] else [acc.reverse]
  | acc, c :: rest =>
    if isJsSpace c then
      if acc.isEmpty then splitTokensAux [] rest else acc.reverse :: splitTokensAux [] rest
    else splitTokensAux (c :: acc) rest

/-- Tokenize one line of enumeration output. -/
def tokenizeLine (s : String) : List String :=
  (splitTokensAux [] s.data).map String.mk

/-- The parsing phase of `getList`: split the raw stdout on newlines, retain
protocol rows, and tokenize each retained row. -/
def getListLines (stdout : String) : List (List String) :=
  ((stdout.splitOn "\n").filter fun l => isProtocol l).map tokenizeLine

/-- The errors the resolver can raise: `TypeError` from argument validation
and the not-found `Error`.  The external command's failure is carried
separately, as the `Except` layer of the command-runner parameters. -/
inductive JsError where
  | typeError (msg : String)
  | notFound (msg : String)
deriving DecidableEq, Repr

/-- Decidable equality for `Except` results, used to evaluate the model on
concrete inputs. -/
instance {e a : Type} [DecidableEq e] [DecidableEq a] : DecidableEq (Except e a) := fun x y =>
  match x, y with
  | Except.ok u, Except.ok v =>
    if h : u = v then isTrue (by rw [h]) else isFalse fun hc => h (Except.ok.inj hc)
  | Except.error u, Except.error v =>
    if h : u = v then isTrue (by rw [h]) else isFalse fun hc => h (Except.error.inj hc)
  | Except.ok _, Except.error _ => isFalse fun hc => Except.noConfusion hc
  | Except.error _, Except.ok _ => isFalse fun hc => Except.noConfusion hc

/-- Source: `createPortErrorMessage`. -/
def createPortErrorMessage (port : Int) (hostFilter : HostFilter) : String :=
  match hostFilter with
  | HostFilter.localhost => "Could not find a process that uses port `" ++ toString port ++ "` on localhost"
  | HostFilter.specific h => "Could not find a process that uses port `" ++ toString port ++ "` on host `" ++ h ++ "`"
  | HostFilter.all => "Could not find a process that uses port `" ++ toString port ++ "`"

/-- Source: `filterPortLines`: keep the rows whose address token matches
`[.:]${port}$`, then apply the host filter. -/
def filterPortLines (port : Nat) (t : ParsedTable) (hostFilter : HostFilter) : List (List String) :=
  applyHostFilter
    (t.lines.filter fun l => portRegexTest port (getTok l t.addressColumn))
    t.addressColumn hostFilter

/-- The tail `\s+(\d+)\s+` of the lsof-fallback regex, anchored at the
current position: a whitespace run, the captured digit run, then at least
one more whitespace character. -/
def lsofTailMatch (cs : List Char) : Option Nat :=
  let ws := cs.takeWhile isJsSpace
  if ws.isEmpty then none
  else
    let rest := cs.drop ws.length
    let ds := rest.takeWhile Char.isDigit
    if ds.isEmpty then none
    else
      match rest.drop ds.length with
      | c :: _ => if isJsSpace c then some (digitsToNat ds) else none
      | [] => none

/-- The lazy gap `.*?` before the tail of the lsof-fallback regex: try the
tail at the shortest gap first; `.` never crosses a line terminator. -/
def lsofGapScan : List Char → Option Nat
  | [] => none
  | c :: rest =>
    match lsofTailMatch (c :: rest) with
    | some n => some n
    | none => if c = '\n' || c = '\r' then none else lsofGapScan rest

/-- One attempt of `` new RegExp(`[\\[\\]:.]${port}\\s.*?\\s+(\\d+)\\s+`) ``
at a fixed position: a bracket/colon/dot, the literal port digits, one
whitespace character, then the lazy gap and the capture. -/
def lsofMatchAt (portStr : List Char) : List Char → Option Nat
  | [] => none
  | c :: rest =>
    if c = '[' || c = ']' || c = ':' || c = '.' then
      match stripPrefixList portStr rest with
      | some (w :: tail) => if isJsSpace w then lsofGapScan tail else none
      | _ => none
    else none

/-- Leftmost-match search of the lsof-fallback regex. -/
def lsofSearch (portStr : List Char) : List Char → Option Nat
  | [] => none
  | c :: rest =>
    match lsofMatchAt portStr (c :: rest) with
    | some n => some n
    | none => lsofSearch portStr rest

/-- The PID extraction `getPort` performs on the stdout of the `lsof`
fallback command. -/
def lsofExtract (port : Nat) (out : String) : Option Nat :=
  lsofSearch (Nat.repr port).data out.data

/-- Source: `getPort(port, {lines, addressColumn, pidColumn}, host)`.
`lsofResult` is the outcome of running the external `lsof` fallback
command (`Except.error` = the command could not run or exited non-zero);
`platformHasLsof` is `process.platform === 'darwin' || === 'linux'`.
The `try { … } catch { }` around the fallback makes a failed fallback fall
through to `return undefined`. -/
def getPort (port : Int) (t : ParsedTable) (host : Option String)
    (lsofResult : Except Unit String) (platformHasLsof : Bool) :
    Except JsError (Option Nat) :=
  if 1 ≤ port ∧ port ≤ 65535 then
    match filterPortLines port.toNat t (createHostFilter host) with
    | [] => Except.error (JsError.notFound (createPortErrorMessage port (createHostFilter host)))
    | first :: rest =>
      match parsePid (getTok ((sortByHostPriority (first :: rest)
          (fun l => jsToStr (getTok l t.addressColumn))).headD []) t.pidColumn) with
      | some pid => Except.ok (some pid)
      | none =>
        if platformHasLsof then
          match lsofResult with
          | Except.ok out =>
            match lsofExtract port.toNat out with
            | some pid => Except.ok (some pid)
            | none => Except.ok none
          | Except.error _ => Except.ok none
        else Except.ok none
  else Except.error (JsError.typeError ("Expected a TCP/UDP port between 1 and 65535, got " ++ toString port))

/-- Model of `Map.prototype.set` on an insertion-ordered association list: an
existing key keeps its position and gets the new value, a new key is
appended at the end. -/
def mapSet (m : List (Nat × Nat)) (k v : Nat) : List (Nat × Nat) :=
  if m.any fun e => e.1 == k then
    m.map fun e => if e.1 == k then (k, v) else e
  else m ++ [(k, v)]

/-- The port/PID pair one row contributes to `allPortsWithPid`'s map:
present only when both the parsed port and the parsed PID are present. -/
def entryOf (l : List String) (a pc : Nat) : Option (Nat × Nat) :=
  match (parseAddress (getTok l a)).port, parsePid (getTok l pc) with
  | some pt, some pid => some (pt, pid)
  | _, _ => none

/-- One iteration of `allPortsWithPid`'s row loop. -/
def portPidStep (a pc : Nat) (m : List (Nat × Nat)) (l : List String) : List (Nat × Nat) :=
  match entryOf l a pc with
  | some e => mapSet m e.1 e.2
  | none => m

/-- The `resultMap` loop of `allPortsWithPid` over a row list. -/
def portPidMap (lines : List (List String)) (a pc : Nat) : List (Nat × Nat) :=
  lines.foldl (portPidStep a pc) []

/-- Source: `allPortsWithPid(options)` after host validation: filter the
rows by the classified host filter, then fill the port-to-PID map. -/
def allPortsWithPidCore (host : Option String) (t : ParsedTable) : List (Nat × Nat) :=
  portPidMap (applyHostFilter t.lines t.addressColumn (createHostFilter host))
    t.addressColumn t.pidColumn

/-- Source: `pidToPorts(pid)` (single-PID form) over a given snapshot:
`getPidsToPortsMap` iterates `allPortsWithPid({host: '*'})` and collects the
ports mapped to `pid`.  The result models the returned `Set` as the list of
its elements in insertion order. -/
def pidToPortsCore (pid : Nat) (t : ParsedTable) : List Nat :=
  (allPortsWithPidCore (some "*") t).filterMap fun e =>
    if e.2 == pid then some e.1 else none

/-- Characterisation used by the theorems below: the PID of the last row of
`lines` whose parsed port is `q` and whose PID token parses.  (`a`, `pc` are
the address and PID column indices.) -/
def lastRowPid (a pc q : Nat) : List (List String) → Option Nat
  | [] => none
  | l :: rest =>
    match lastRowPid a pc q rest with
    | some w => some w
    | none =>
      match entryOf l a pc with
      | some e => if e.1 == q then some e.2 else none
      | none => none

/-- One binding of `portBindings`: the normalized host (possibly absent in
JS, though never for a row that matched the port regex) and the parsed PID. -/
structure Binding where
  host : Option String
  pid : Nat
deriving DecidableEq, Repr

/-- The template-literal key `` `${host}|${pid}` `` used by `portBindings`
to deduplicate bindings (JS stringifies `undefined` in a template literal). -/
def bindingKey (host : Option String) (pid : Nat) : String :=
  jsToStr host ++ "|" ++ Nat.repr pid

/-- The dedup loop of `portBindings`: `seen` is the JS `Set` of keys already
pushed. -/
def dedupBindings (a pc : Nat) : List (List String) → List String → List Binding
  | [], _ => []
  | l :: rest, seen =>
    match parsePid (getTok l pc) with
    | none => dedupBindings a pc rest seen
    | some pid =>
      let host := (parseAddress (getTok l a)).host
      let key := bindingKey host pid
      if key ∈ seen then dedupBindings a pc rest seen
      else { host := host, pid := pid } :: dedupBindings a pc rest (key :: seen)

/-- Source: `portBindings(port, options)`. -/
def portBindings (port : Int) (host : Option String) (t : ParsedTable) :
    Except JsError (List Binding) :=
  if 1 ≤ port ∧ port ≤ 65535 then
    match filterPortLines port.toNat t (createHostFilter host) with
    | [] => Except.error (JsError.notFound
        ((createPortErrorMessage port (createHostFilter host)).replace
          "a process that uses" "any processes using"))
    | first :: rest =>
      Except.ok (sortByHostPriority
        (dedupBindings t.addressColumn t.pidColumn (first :: rest) [])
        (fun b => jsToStr b.host))
  else Except.error (JsError.typeError ("Expected a TCP/UDP port between 1 and 65535, got " ++ toString port))

/-- A JS value passed where a port is expected: an integer number, or
anything else (a non-integer number, a string, …; the payload is its JS
string rendering, used in the validation message). -/
inductive JsPort where
  | int (n : Int)
  | other (rendered : String)
deriving DecidableEq, Repr

/-- A JS value passed where a host is expected: `undefined`, a string, or a
value of any other type (the payload is its `typeof` string). -/
inductive JsHost where
  | undef
  | str (s : String)
  | other (typeName : String)
deriving DecidableEq, Repr

/-- Source: `validatePort(port, context)`: `Number.isInteger(port)` and the
1–65535 range, else a `TypeError`. -/
def validatePortE (port : JsPort) (context : String) : Except JsError Int :=
  match port with
  | JsPort.int n =>
    if 1 ≤ n ∧ n ≤ 65535 then Except.ok n
    else Except.error (JsError.typeError
      ("Expected " ++ context ++ " between 1 and 65535, got " ++ toString n))
  | JsPort.other r =>
    Except.error (JsError.typeError
      ("Expected " ++ context ++ " between 1 and 65535, got " ++ r))

/-- Source: `validateHost(host)`. -/
def validateHostE (host : JsHost) : Except JsError (Option String) :=
  match host with
  | JsHost.undef => Except.ok none
  | JsHost.str s => Except.ok (some s)
  | JsHost.other t => Except.error (JsError.typeError ("Expected host to be a string, got " ++ t))

/-- The per-element validation loop of `portToPid`'s array branch: the first
invalid entry aborts the whole call. -/
def validatePortsE : List JsPort → Except JsError (List Int)
  | [] => Except.ok []
  | p :: ps =>
    match validatePortE p "port to be an integer" with
    | Except.error e => Except.error e
    | Except.ok n =>
      match validatePortsE ps with
      | Except.error e => Except.error e
      | Except.ok ns => Except.ok (n :: ns)

/-- The three call shapes `portToPid` dispatches on: an options object with
a `port` field, an array of ports, or a bare port value. -/
inductive PortToPidArg where
  | options (port : JsPort) (host : JsHost)
  | ports (ports : List JsPort)
  | single (port : JsPort)
deriving DecidableEq, Repr

/-- The result of `portToPid`: one PID (possibly absent) or the port-to-PID
map of the array form. -/
inductive PortToPidResult where
  | one (pid : Option Nat)
  | multiple (m : List (Int × Option Nat))
deriving DecidableEq, Repr

/-- The `Promise.all` loop of `portToPid`'s array branch: every port is
resolved against the one shared snapshot; the first rejection aborts. -/
def getPortsList (ns : List Int) (t : ParsedTable) (lsofResult : Except Unit String)
    (platformHasLsof : Bool) : Except JsError (List (Int × Option Nat)) :=
  match ns with
  | [] => Except.ok []
  | n :: rest =>
    match getPort n t none lsofResult platformHasLsof with
    | Except.error e => Except.error e
    | Except.ok r =>
      match getPortsList rest t lsofResult platformHasLsof with
      | Except.error e => Except.error e
      | Except.ok m => Except.ok ((n, r) :: m)

/-- Source: `portToPid(portOrOptions)`.  Validation runs before the
enumeration command: `table` (the outcome of `await getList()`, with
`Except.error` standing for a failed enumeration command) is consulted only
after every validation has passed, so a validation `TypeError` is returned
for every possible `table` value. -/
def portToPid (arg : PortToPidArg) (table : Except JsError ParsedTable)
    (lsofResult : Except Unit String) (platformHasLsof : Bool) :
    Except JsError PortToPidResult :=
  match arg with
  | PortToPidArg.options port host =>
    match validatePortE port "port to be an integer" with
    | Except.error e => Except.error e
    | Except.ok n =>
      match validateHostE host with
      | Except.error e => Except.error e
      | Except.ok hostOpt =>
        match table with
        | Except.error e => Except.error e
        | Except.ok t =>
          match getPort n t hostOpt lsofResult platformHasLsof with
          | Except.error e => Except.error e
          | Except.ok r => Except.ok (PortToPidResult.one r)
  | PortToPidArg.ports ports =>
    match validatePortsE ports with
    | Except.error e => Except.error e
    | Except.ok ns =>
      match table with
      | Except.error e => Except.error e
      | Except.ok t =>
        match getPortsList ns t lsofResult platformHasLsof with
        | Except.error e => Except.error e
        | Except.ok m => Except.ok (PortToPidResult.multiple m)
  | PortToPidArg.single port =>
    match validatePortE port "a TCP/UDP port" with
    | Except.error e => Except.error e
    | Except.ok n =>
      match table with
      | Except.error e => Except.error e
      | Except.ok t =>
        match getPort n t none lsofResult platformHasLsof with
        | Except.error e => Except.error e
        | Except.ok r => Except.ok (PortToPidResult.one r)

/-- The port value of a JS call is invalid when it is not an integer in
1..65535 (non-integer numbers and non-numbers included). -/
def invalidPortVal : JsPort → Bool
  | JsPort.int n => decide (n < 1) || decide (65535 < n)
  | JsPort.other _ => true

/-- A host argument that is neither `undefined` nor a string. -/
def hostNonString : JsHost → Bool
  | JsHost.other _ => true
  | _ => false

/-- A `portToPid` argument containing an invalid port (including any entry
of the array form) or a non-string host. -/
def argHasBadInput : PortToPidArg → Bool
  | PortToPidArg.single p => invalidPortVal p
  | PortToPidArg.options p h => invalidPortVal p || hostNonString h
  | PortToPidArg.ports ps => ps.any invalidPortVal

/-- Table with one port owned by two PIDs on two interfaces (for C1). -/
def c1Table : ParsedTable :=
  { lines := [["tcp", "1.2.3.4:80", "1"], ["tcp", "5.6.7.8:80", "2"]],
    addressColumn := 1, pidColumn := 2 }

/-- Table reporting the same socket under TCP and UDP (for C5). -/
def c5Table : ParsedTable :=
  { lines := [["tcp", "127.0.0.1:80", "5"], ["udp", "127.0.0.1.80", "5"]],
    addressColumn := 1, pidColumn := 2 }

/-- Table whose only matching row has an unparseable PID column (for C6). -/
def c6Table : ParsedTable :=
  { lines := [["tcp", "127.0.0.1:80", "-"]], addressColumn := 1, pidColumn := 2 }

/-- Table with one localhost-bound and one externally-bound port (for C8). -/
def c8Table : ParsedTable :=
  { lines := [["tcp", "127.0.0.1:80", "1"], ["tcp", "10.0.0.5:90", "2"]],
    addressColumn := 1, pidColumn := 2 }

/-- Row list with one port owned by PID 1 on IPv4 localhost and PID 2 on
IPv6 localhost (for C10). -/
def c10Lines : List (List String) := [["tcp", "127.0.0.1:9", "1"], ["tcp", "::1.9", "2"]]

/-- Table over `c10Lines` (for C10). -/
def c10Table : ParsedTable :=
  { lines := c10Lines, addressColumn := 1, pidColumn := 2 }

/-! Helper lemmas about the comparator and the stable sort. -/

theorem insertByCompare_perm (c : α → α → Int) (x : α) (l : List α) :
    List.Perm (insertByCompare c x l) (x :: l) := by
  induction l with
  | nil => exact List.Perm.refl _
  | cons y ys ih =>
    unfold insertByCompare
    by_cases h : c x y ≤ 0
    · rw [if_pos h]
    · rw [if_neg h]
      exact (ih.cons y).trans (List.Perm.swap x y ys)

theorem sortByCompare_perm (c : α → α → Int) (l : List α) :
    List.Perm (sortByCompare c l) l := by
  induction l with
  | nil => exact List.Perm.refl _
  | cons x xs ih =>
    exact (insertByCompare_perm c x (sortByCompare c xs)).trans (ih.cons x)

/-! Helper lemmas about the insertion-ordered map. -/

theorem lookup_map_replace_ne (m : List (Nat × Nat)) (k v q : Nat) (hq : q ≠ k) :
    List.lookup q (m.map fun e => if e.1 == k then (k, v) else e) = List.lookup q m := by
  induction m with
  | nil => rfl
  | cons e m ih =>
    obtain ⟨e1, e2⟩ := e
    simp only [List.map_cons]
    by_cases he : e1 = k
    · subst he
      simp only [beq_self_eq_true, if_true, List.lookup_cons]
      have hqe : (q == e1) = false := by simp [hq]
      simp only [hqe, ih]
    · have hne : (e1 == k) = false := by simp [he]
      simp only [hne, Bool.false_eq_true, if_false, List.lookup_cons]
      by_cases hqe : q = e1
      · subst hqe; simp
      · have hqe' : (q == e1) = false := by simp [hqe]
        simp only [hqe', ih]

theorem lookup_map_replace_eq (m : List (Nat × Nat)) (k v : Nat)
    (hany : (m.any fun e => e.1 == k) = true) :
    List.lookup k (m.map fun e => if e.1 == k then (k, v) else e) = some v := by
  induction m with
  | nil => simp at hany
  | cons e m ih =>
    obtain ⟨e1, e2⟩ := e
    simp only [List.map_cons]
    by_cases he : e1 = k
    · subst he
      simp [List.lookup_cons]
    · have hne : (e1 == k) = false := by simp [he]
      simp only [List.any_cons, hne, Bool.false_or] at hany
      have hke : (k == e1) = false := by simp [Ne.symm he]
      simp only [hne, Bool.false_eq_true, if_false, List.lookup_cons, hke, ih hany]

theorem lookup_append_single_eq (m : List (Nat × Nat)) (k v : Nat)
    (hany : (m.any fun e => e.1 == k) = false) :
    List.lookup k (m ++ [(k, v)]) = some v := by
  induction m with
  | nil => simp [List.lookup_cons]
  | cons e m ih =>
    obtain ⟨e1, e2⟩ := e
    simp only [List.any_cons, Bool.or_eq_false_iff] at hany
    have hke : (k == e1) = false := by
      have h1 : e1 ≠ k := by simpa using hany.1
      simp [Ne.symm h1]
    simp only [List.cons_append, List.lookup_cons, hke]
    exact ih hany.2

theorem lookup_append_single_ne (m : List (Nat × Nat)) (k v q : Nat) (hq : q ≠ k) :
    List.lookup q (m ++ [(k, v)]) = List.lookup q m := by
  induction m with
  | nil =>
    have hqk : (q == k) = false := by simp [hq]
    simp [List.lookup_cons, hqk]
  | cons e m ih =>
    obtain ⟨e1, e2⟩ := e
    simp only [List.cons_append, List.lookup_cons]
    by_cases hqe : q = e1
    · subst hqe; simp
    · have hqe' : (q == e1) = false := by simp [hqe]
      simp only [hqe', ih]

/-- Combined behaviour of `Map.prototype.set` and `Map.prototype.get`: the set key now maps to the
new value, every other key is untouched. -/
theorem lookup_mapSet (m : List (Nat × Nat)) (k v q : Nat) :
    List.lookup q (mapSet m k v) = if q = k then some v else List.lookup q m := by
  unfold mapSet
  by_cases hany : (m.any fun e => e.1 == k) = true
  · rw [if_pos hany]
    by_cases hq : q = k
    · subst hq; rw [if_pos rfl]; exact lookup_map_replace_eq m q v hany
    · rw [if_neg hq]; exact lookup_map_replace_ne m k v q hq
  · rw [if_neg hany]
    by_cases hq : q = k
    · subst hq; rw [if_pos rfl]
      exact lookup_append_single_eq m q v (by revert hany; cases m.any fun e => e.1 == q <;> simp)
    · rw [if_neg hq]; exact lookup_append_single_ne m k v q hq

/-- The function `mapSet` leaves the key sequence unchanged when the key is present and
appends it otherwise. -/
theorem keys_mapSet (m : List (Nat × Nat)) (k v : Nat) :
    (mapSet m k v).map Prod.fst =
      if (m.any fun e => e.1 == k) = true then m.map Prod.fst
      else m.map Prod.fst ++ [k] := by
  unfold mapSet
  by_cases hany : (m.any fun e => e.1 == k) = true
  · rw [if_pos hany, if_pos hany, List.map_map]
    apply List.map_congr_left
    intro e _
    by_cases he : e.1 = k
    · simp [he]
    · simp [he]
  · rw [if_neg hany, if_neg hany]
    simp

theorem keys_nodup_mapSet (m : List (Nat × Nat)) (k v : Nat)
    (h : (m.map Prod.fst).Nodup) : ((mapSet m k v).map Prod.fst).Nodup := by
  rw [keys_mapSet]
  by_cases hany : (m.any fun e => e.1 == k) = true
  · rw [if_pos hany]; exact h
  · rw [if_neg hany]
    rw [List.nodup_append]
    refine ⟨h, List.nodup_singleton k, ?_⟩
    intro x hx hxk
    have hxk' : x = k := by simpa using hxk
    subst hxk'
    obtain ⟨e, hem, hek⟩ := List.mem_map.1 hx
    exact hany (List.any_eq_true.2 ⟨e, hem, by simp [hek]⟩)

theorem keys_nodup_portPidMap_aux (a pc : Nat) :
    ∀ (lines : List (List String)) (m : List (Nat × Nat)),
      (m.map Prod.fst).Nodup →
      ((lines.foldl (portPidStep a pc) m).map Prod.fst).Nodup := by
  intro lines
  induction lines with
  | nil => intro m h; exact h
  | cons l rest ih =>
    intro m h
    rw [List.foldl_cons]
    apply ih
    unfold portPidStep
    cases entryOf l a pc with
    | none => exact h
    | some e => exact keys_nodup_mapSet m e.1 e.2 h

theorem keys_nodup_portPidMap (lines : List (List String)) (a pc : Nat) :
    ((portPidMap lines a pc).map Prod.fst).Nodup :=
  keys_nodup_portPidMap_aux a pc lines [] (by simp)

theorem mem_of_lookup_eq_some (m : List (Nat × Nat)) (q v : Nat)
    (h : List.lookup q m = some v) : (q, v) ∈ m := by
  induction m with
  | nil => simp at h
  | cons e m ih =>
    obtain ⟨e1, e2⟩ := e
    rw [List.lookup_cons] at h
    by_cases hqe : q = e1
    · subst hqe
      simp only [beq_self_eq_true] at h
      obtain rfl : e2 = v := by simpa using h
      exact List.mem_cons_self _ _
    · have hqe' : (q == e1) = false := by simp [hqe]
      rw [hqe'] at h
      exact List.mem_cons_of_mem _ (ih h)

theorem lookup_eq_some_of_mem_nodup (m : List (Nat × Nat)) (q v : Nat)
    (hmem : (q, v) ∈ m) (hnd : (m.map Prod.fst).Nodup) :
    List.lookup q m = some v := by
  induction m with
  | nil => simp at hmem
  | cons e m ih =>
    obtain ⟨e1, e2⟩ := e
    rw [List.map_cons, List.nodup_cons] at hnd
    rcases List.mem_cons.1 hmem with heq | hmem'
    · obtain ⟨rfl, rfl⟩ := Prod.mk.injEq .. ▸ heq
      · simp [List.lookup_cons]
    · have hqe : q ≠ e1 := by
        rintro rfl
        exact hnd.1 (List.mem_map.2 ⟨(q, v), hmem', rfl⟩)
      have hqe' : (q == e1) = false := by simp [hqe]
      rw [List.lookup_cons, hqe']
      exact ih hmem' hnd.2

theorem lookup_foldl_portPidStep (a pc q : Nat) :
    ∀ (lines : List (List String)) (m : List (Nat × Nat)),
      List.lookup q (lines.foldl (portPidStep a pc) m) =
        match lastRowPid a pc q lines with
        | some w => some w
        | none => List.lookup q m := by
  intro lines
  induction lines with
  | nil => intro m; rfl
  | cons l rest ih =>
    intro m
    rw [List.foldl_cons, ih]
    show _ = match lastRowPid a pc q (l :: rest) with
      | some w => some w
      | none => List.lookup q m
    simp only [lastRowPid]
    cases hrest : lastRowPid a pc q rest with
    | some w => simp
    | none =>
      simp only []
      unfold portPidStep
      cases he : entryOf l a pc with
      | none => simp
      | some e =>
        simp only []
        rw [lookup_mapSet]
        by_cases hq : q = e.1
        · subst hq
          simp
        · have h1 : (e.1 == q) = false := by simp [Ne.symm hq]
          simp [hq, h1]

theorem lookup_portPidMap (lines : List (List String)) (a pc q : Nat) :
    List.lookup q (portPidMap lines a pc) = lastRowPid a pc q lines := by
  unfold portPidMap
  rw [lookup_foldl_portPidStep]
  cases lastRowPid a pc q lines <;> simp

theorem entryOf_eq_some_iff (l : List String) (a pc p v : Nat) :
    entryOf l a pc = some (p, v) ↔
      (parseAddress (getTok l a)).port = some p ∧ parsePid (getTok l pc) = some v := by
  unfold entryOf
  cases hport : (parseAddress (getTok l a)).port with
  | none => simp
  | some pt =>
    cases hpid : parsePid (getTok l pc) with
    | none => simp
    | some pid => simp [Prod.ext_iff]

theorem lastRowPid_isSome_iff (a pc q : Nat) :
    ∀ lines : List (List String),
      (lastRowPid a pc q lines).isSome = true ↔
        ∃ l, l ∈ lines ∧ ∃ v, entryOf l a pc = some (q, v) := by
  intro lines
  induction lines with
  | nil => simp [lastRowPid]
  | cons l rest ih =>
    simp only [lastRowPid]
    cases hrest : lastRowPid a pc q rest with
    | some w =>
      simp only [Option.isSome_some, true_iff]
      obtain ⟨l', hl', hv⟩ := ih.1 (by simp [hrest])
      exact ⟨l', List.mem_cons_of_mem _ hl', hv⟩
    | none =>
      simp only []
      cases he : entryOf l a pc with
      | none =>
        simp only [Option.isSome_none, Bool.false_eq_true, false_iff]
        rintro ⟨l', hl', v, hv⟩
        rcases List.mem_cons.1 hl' with rfl | hl'
        · rw [he] at hv; exact Option.noConfusion hv
        · have : (lastRowPid a pc q rest).isSome = true := ih.2 ⟨l', hl', v, hv⟩
          rw [hrest] at this; exact Bool.noConfusion this
      | some e =>
        simp only []
        by_cases heq : e.1 = q
        · have hbeq : (e.1 == q) = true := by simp [heq]
          rw [hbeq]
          simp only [if_true, Option.isSome_some, true_iff]
          refine ⟨l, List.mem_cons_self _ _, e.2, ?_⟩
          rw [he]
          exact congrArg some (Prod.ext heq rfl)
        · have hbeq : (e.1 == q) = false := by simp [heq]
          rw [hbeq]
          simp only [Bool.false_eq_true, if_false, Option.isSome_none, false_iff]
          rintro ⟨l', hl', v, hv⟩
          rcases List.mem_cons.1 hl' with rfl | hl'
          · rw [he] at hv
            have : e = (q, v) := Option.some.inj hv
            exact heq (by rw [this])
          · have : (lastRowPid a pc q rest).isSome = true := ih.2 ⟨l', hl', v, hv⟩
            rw [hrest] at this; exact Bool.noConfusion this

/-! Helper lemmas about the dedup loop of `portBindings` and about rows that
are too short to hold both columns. -/

theorem dedupBindings_invariant (a pc : Nat) :
    ∀ (lines : List (List String)) (seen : List String),
      (∀ b ∈ dedupBindings a pc lines seen, bindingKey b.host b.pid ∉ seen) ∧
      (dedupBindings a pc lines seen).Pairwise
        (fun b1 b2 => bindingKey b1.host b1.pid ≠ bindingKey b2.host b2.pid) := by
  intro lines
  induction lines with
  | nil => intro seen; exact ⟨by simp [dedupBindings], by simp [dedupBindings]⟩
  | cons l rest ih =>
    intro seen
    simp only [dedupBindings]
    cases hpid : parsePid (getTok l pc) with
    | none => exact ih seen
    | some pid =>
      simp only []
      by_cases hkey : bindingKey (parseAddress (getTok l a)).host pid ∈ seen
      · rw [if_pos hkey]; exact ih seen
      · rw [if_neg hkey]
        obtain ⟨ihmem, ihpw⟩ := ih (bindingKey (parseAddress (getTok l a)).host pid :: seen)
        constructor
        · intro b hb
          rcases List.mem_cons.1 hb with rfl | hb
          · exact hkey
          · intro hin
            exact ihmem b hb (List.mem_cons_of_mem _ hin)
        · refine List.pairwise_cons.2 ⟨?_, ihpw⟩
          intro b hb heq
          exact ihmem b hb (heq ▸ List.mem_cons_self _ _)

theorem portPidMap_skip_row (a pc : Nat) (pre post : List (List String)) (l : List String)
    (hnone : entryOf l a pc = none) :
    portPidMap (pre ++ l :: post) a pc = portPidMap (pre ++ post) a pc := by
  unfold portPidMap
  rw [List.foldl_append, List.foldl_append, List.foldl_cons]
  congr 1
  unfold portPidStep
  rw [hnone]

theorem entryOf_none_of_short (l : List String) (a pc : Nat)
    (hshort : l.length < Nat.max a pc + 1) : entryOf l a pc = none := by
  rcases Nat.le_total a pc with hle | hle
  · have hmax : Nat.max a pc = pc := Nat.max_eq_right hle
    have hpc : getTok l pc = none := by
      unfold getTok
      exact List.getElem?_eq_none (by omega)
    unfold entryOf
    rw [hpc]
    cases (parseAddress (getTok l a)).port <;> rfl
  · have hmax : Nat.max a pc = a := Nat.max_eq_left hle
    have ha : getTok l a = none := by
      unfold getTok
      exact List.getElem?_eq_none (by omega)
    unfold entryOf
    rw [ha]
    cases parsePid (getTok l pc) <;> rfl

/-! Claim theorems. -/

theorem normalizeHost_cases (h : String) :
    normalizeHost h = "127.0.0.1" ∨ normalizeHost h = "*" ∨
      (normalizeHost h = stripIpv6Brackets h ∧ stripIpv6Brackets h ≠ "localhost" ∧
       stripIpv6Brackets h ≠ "::ffff:127.0.0.1" ∧ stripIpv6Brackets h ≠ "::") := by
  unfold normalizeHost
  by_cases h1 : stripIpv6Brackets h = "localhost"
  · rw [if_pos h1]; exact Or.inl rfl
  · rw [if_neg h1]
    by_cases h2 : stripIpv6Brackets h = "::ffff:127.0.0.1"
    · rw [if_pos h2]; exact Or.inl rfl
    · rw [if_neg h2]
      by_cases h3 : stripIpv6Brackets h = "::"
      · rw [if_pos h3]; exact Or.inr (Or.inl rfl)
      · rw [if_neg h3]; exact Or.inr (Or.inr ⟨rfl, h1, h2, h3⟩)

theorem normalizeHost_fixed (s : String) (hs : stripIpv6Brackets s = s)
    (h1 : s ≠ "localhost") (h2 : s ≠ "::ffff:127.0.0.1") (h3 : s ≠ "::") :
    normalizeHost s = s := by
  unfold normalizeHost
  rw [hs, if_neg h1, if_neg h2, if_neg h3]

/-- C2 (counterexample): host normalization is not idempotent on every host
string: for the doubly-bracketed `[[::1]]` the first pass strips one bracket
pair, yielding `[::1]`, and a second pass strips another, yielding `::1`. -/
theorem c2_counterexample :
    normalizeHost (normalizeHost "[[::1]]") ≠ normalizeHost "[[::1]]" := by decide

/-- C2 (amended): host normalization is idempotent for every host string
whose normalized form is not itself enclosed in square brackets — in
particular for every realistic host (`localhost`, IPv4/IPv6 literals,
single-bracketed IPv6 literals, the wildcard): a second application of
`normalizeHost` to such a normalized host changes nothing.  Only inputs
wrapped in two or more bracket pairs escape this. -/
theorem c2_amended_normalizeHost_idempotent (h : String)
    (hb : (jsStartsWith (normalizeHost h) "[" && jsEndsWith (normalizeHost h) "]") = false) :
    normalizeHost (normalizeHost h) = normalizeHost h := by
  have hstrip : stripIpv6Brackets (normalizeHost h) = normalizeHost h := by
    unfold stripIpv6Brackets
    rw [hb]
    simp
  obtain ⟨g1, g2, g3⟩ : normalizeHost h ≠ "localhost" ∧
      normalizeHost h ≠ "::ffff:127.0.0.1" ∧ normalizeHost h ≠ "::" := by
    rcases normalizeHost_cases h with h1 | h1 | ⟨heq, hn1, hn2, hn3⟩
    · rw [h1]; exact ⟨by decide, by decide, by decide⟩
    · rw [h1]; exact ⟨by decide, by decide, by decide⟩
    · rw [heq]; exact ⟨hn1, hn2, hn3⟩
  exact normalizeHost_fixed _ hstrip g1 g2 g3

theorem c2_witness :
    (jsStartsWith (normalizeHost "localhost") "[" &&
      jsEndsWith (normalizeHost "localhost") "]") = false ∧
    normalizeHost (normalizeHost "localhost") = normalizeHost "localhost" :=
  ⟨by decide, c2_amended_normalizeHost_idempotent "localhost" (by decide)⟩

/-- C4: under a `SpecificHost(h)` filter a row survives iff the normalized
host parsed from its address token is string-equal to `h` — no substring or
regex interpretation; in particular a row with host `127x0x0x1` never
survives the filter for `127.0.0.1` and vice versa. -/
theorem c4_specific_host_literal_equality :
    (∀ (lines : List (List String)) (a : Nat) (hst : String) (l : List String),
        l ∈ applyHostFilter lines a (HostFilter.specific hst) ↔
          l ∈ lines ∧ (parseAddress (getTok l a)).host = some hst) ∧
    applyHostFilter [["tcp", "127x0x0x1:80", "1"]] 1 (createHostFilter (some "127.0.0.1")) = [] ∧
    applyHostFilter [["tcp", "127.0.0.1:80", "1"]] 1 (createHostFilter (some "127x0x0x1")) = [] := by
  refine ⟨?_, by decide, by decide⟩
  intro lines a hst l
  show l ∈ lines.filter _ ↔ _
  rw [List.mem_filter]
  simp

/-- C10: in `allPortsWithPid`'s map the value at each port is the PID of the
last retained row (in table order) with that parsed port and a parseable
PID — `Map.set` makes the last write win, with no host-priority sorting on
this per-port choice; on the concrete two-row table the map keeps PID 2
(last row, IPv6 localhost) while `portToPid` sorts and selects PID 1 (IPv4
localhost row). -/
theorem c10_last_row_wins :
    (∀ (lines : List (List String)) (a pc q : Nat),
        List.lookup q (portPidMap lines a pc) = lastRowPid a pc q lines) ∧
    List.lookup 9 (portPidMap c10Lines 1 2) = some 2 ∧
    getPort 9 c10Table (some "*") (Except.error ()) true = Except.ok (some 1) :=
  ⟨fun lines a pc q => lookup_portPidMap lines a pc q, by decide, by decide⟩

/-- C1 (counterexample): `pidToPorts` does not return every port for which
some retained row is owned by the PID: with rows `(port 80, pid 1)` then
`(port 80, pid 2)`, the all-interfaces map keeps only the last owner, so
port 80 is missing from `pidToPorts 1` although a retained row has port 80
and PID 1. -/
theorem c1_counterexample :
    (∃ l, l ∈ c1Table.lines ∧ (parseAddress (getTok l c1Table.addressColumn)).port = some 80 ∧
      parsePid (getTok l c1Table.pidColumn) = some 1) ∧
    80 ∉ pidToPortsCore 1 c1Table := by
  exact ⟨⟨["tcp", "1.2.3.4:80", "1"], by decide, by decide, by decide⟩, by decide⟩

/-- C1 (amended): `pidToPorts(pid)` returns exactly the ports `p` whose
*last* retained row with parsed port `p` and a parseable PID has PID equal
to `pid`.  The scan covers all interfaces (the underlying map is built with
the all-interfaces filter over every retained row), so no row owned by the
PID is excluded by the default localhost policy — but an earlier row owned
by `pid` is shadowed when a later row maps the same port to another PID. -/
theorem c1_amended_pidToPorts_last_owner (t : ParsedTable) (pid p : Nat) :
    p ∈ pidToPortsCore pid t ↔
      lastRowPid t.addressColumn t.pidColumn p t.lines = some pid := by
  have hall : allPortsWithPidCore (some "*") t =
      portPidMap t.lines t.addressColumn t.pidColumn := by
    unfold allPortsWithPidCore
    have hstar : createHostFilter (some "*") = HostFilter.all := by decide
    rw [hstar]
    rfl
  unfold pidToPortsCore
  rw [hall, List.mem_filterMap]
  constructor
  · rintro ⟨e, he, hsome⟩
    by_cases hbe : e.2 = pid
    · have hb : (e.2 == pid) = true := by simp [hbe]
      rw [hb, if_pos rfl] at hsome
      have he1 : e.1 = p := Option.some.inj hsome
      rw [← lookup_portPidMap]
      apply lookup_eq_some_of_mem_nodup
      · exact (show e = (p, pid) from Prod.ext he1 hbe) ▸ he
      · exact keys_nodup_portPidMap _ _ _
    · have hb : (e.2 == pid) = false := by simp [hbe]
      rw [hb] at hsome
      simp at hsome
  · intro h
    have hmem := mem_of_lookup_eq_some _ p pid (by rw [lookup_portPidMap]; exact h)
    exact ⟨(p, pid), hmem, by simp⟩

theorem allPortsWithPidCore_star (t : ParsedTable) :
    allPortsWithPidCore (some "*") t =
      portPidMap t.lines t.addressColumn t.pidColumn := by
  unfold allPortsWithPidCore
  have hstar : createHostFilter (some "*") = HostFilter.all := by decide
  rw [hstar]
  rfl

theorem allPortsWithPidCore_default (t : ParsedTable) :
    allPortsWithPidCore none t =
      portPidMap (t.lines.filter fun l =>
          isLocalhostAddress (parseAddress (getTok l t.addressColumn)).host)
        t.addressColumn t.pidColumn := rfl

/-- C8: for one parsed table, every port appearing as a key of the default
(localhost-only) `allPortsWithPid` map also appears as a key of the
all-interfaces map; and a port whose rows are all non-localhost (with a
parseable PID on at least one of them) appears in the all-interfaces map
but not in the default map. -/
theorem c8_default_subset_all (t : ParsedTable) (p : Nat) :
    ((List.lookup p (allPortsWithPidCore none t)).isSome = true →
      (List.lookup p (allPortsWithPidCore (some "*") t)).isSome = true) ∧
    ((∃ l, l ∈ t.lines ∧ (parseAddress (getTok l t.addressColumn)).port = some p ∧
        parsePid (getTok l t.pidColumn) ≠ none) →
      (∀ l, l ∈ t.lines → (parseAddress (getTok l t.addressColumn)).port = some p →
        isLocalhostAddress (parseAddress (getTok l t.addressColumn)).host = false) →
      (List.lookup p (allPortsWithPidCore (some "*") t)).isSome = true ∧
        List.lookup p (allPortsWithPidCore none t) = none) := by
  rw [allPortsWithPidCore_star, allPortsWithPidCore_default,
    lookup_portPidMap, lookup_portPidMap]
  constructor
  · intro hloc
    obtain ⟨l, hl, v, hv⟩ := (lastRowPid_isSome_iff _ _ _ _).1 hloc
    exact (lastRowPid_isSome_iff _ _ _ _).2 ⟨l, (List.mem_filter.1 hl).1, v, hv⟩
  · rintro ⟨l, hl, hport, hpid⟩ hnotloc
    constructor
    · obtain ⟨v, hv⟩ := Option.ne_none_iff_exists'.1 hpid
      exact (lastRowPid_isSome_iff _ _ _ _).2
        ⟨l, hl, v, (entryOf_eq_some_iff _ _ _ _ _).2 ⟨hport, hv⟩⟩
    · rw [← Option.not_isSome_iff_eq_none]
      intro hs
      rw [Option.isSome_iff_exists] at hs
      have hs' : (lastRowPid t.addressColumn t.pidColumn p
          (t.lines.filter fun l =>
            isLocalhostAddress (parseAddress (getTok l t.addressColumn)).host)).isSome = true := by
        obtain ⟨w, hw⟩ := hs
        rw [hw]
        rfl
      obtain ⟨l', hl', v, hv⟩ := (lastRowPid_isSome_iff _ _ _ _).1 hs'
      obtain ⟨hl'mem, hl'pred⟩ := List.mem_filter.1 hl'
      have hport' := ((entryOf_eq_some_iff _ _ _ _ _).1 hv).1
      have hfalse := hnotloc l' hl'mem hport'
      rw [hfalse] at hl'pred
      exact Bool.noConfusion hl'pred

theorem c8_witness :
    (List.lookup 90 (allPortsWithPidCore (some "*") c8Table)).isSome = true ∧
    List.lookup 90 (allPortsWithPidCore none c8Table) = none :=
  (c8_default_subset_all c8Table 90).2
    ⟨["tcp", "10.0.0.5:90", "2"], by decide, by decide, by decide⟩ (by decide)

/-- C9: parsing is total over arbitrary text: a retained row with fewer
tokens than `max(addressColumn, pidColumn) + 1` yields an absent value at
the out-of-range column (`parsePid`/`parseAddress` return absent fields on
absent input rather than raising), its port or PID therefore parses as
absent, and removing such a row leaves the port-to-PID map of the remaining
rows unchanged — a malformed row never aborts enumeration of the rest. -/
theorem c9_short_rows_tolerated (a pc : Nat) (pre post : List (List String)) (l : List String)
    (hshort : l.length < Nat.max a pc + 1) :
    getTok l (Nat.max a pc) = none ∧
    parsePid none = none ∧
    parseAddress none = { host := none, port := none } ∧
    (parsePid (getTok l pc) = none ∨ (parseAddress (getTok l a)).port = none) ∧
    portPidMap (pre ++ l :: post) a pc = portPidMap (pre ++ post) a pc := by
  have hnone := entryOf_none_of_short l a pc hshort
  refine ⟨?_, rfl, by decide, ?_, portPidMap_skip_row a pc pre post l hnone⟩
  · unfold getTok
    exact List.getElem?_eq_none (by omega)
  · revert hnone
    unfold entryOf
    cases hport : (parseAddress (getTok l a)).port with
    | none => intro _; exact Or.inr rfl
    | some pt =>
      cases hpid : parsePid (getTok l pc) with
      | none => intro _; exact Or.inl rfl
      | some pid =>
        intro hcon
        exact absurd hcon (by simp)

theorem c9_witness :
    getTok ["tcp"] (Nat.max 1 2) = none ∧
    parsePid none = none ∧
    parseAddress none = { host := none, port := none } ∧
    (parsePid (getTok ["tcp"] 2) = none ∨ (parseAddress (getTok ["tcp"] 1)).port = none) ∧
    portPidMap ([["tcp", "127.0.0.1:80", "5"]] ++ ["tcp"] :: [["udp", "127.0.0.1.90", "6"]]) 1 2 =
      portPidMap ([["tcp", "127.0.0.1:80", "5"]] ++ [["udp", "127.0.0.1.90", "6"]]) 1 2 :=
  c9_short_rows_tolerated 1 2 [["tcp", "127.0.0.1:80", "5"]] [["udp", "127.0.0.1.90", "6"]]
    ["tcp"] (by decide)

/-- C5: every successful `portBindings` result has pairwise distinct
`(host, pid)` pairs: the dedup `Set` keyed by `host|pid` admits each pair at
most once, and the final sort only permutes the bindings. -/
theorem c5_portBindings_pairwise_distinct (port : Int) (host : Option String)
    (t : ParsedTable) (r : List Binding)
    (h : portBindings port host t = Except.ok r) :
    r.Pairwise fun b1 b2 => ¬(b1.host = b2.host ∧ b1.pid = b2.pid) := by
  unfold portBindings at h
  by_cases hv : 1 ≤ port ∧ port ≤ 65535
  · rw [if_pos hv] at h
    cases hm : filterPortLines port.toNat t (createHostFilter host) with
    | nil => rw [hm] at h; exact absurd h (by simp)
    | cons first rest =>
      rw [hm] at h
      have hr : sortByHostPriority
          (dedupBindings t.addressColumn t.pidColumn (first :: rest) [])
          (fun b => jsToStr b.host) = r := Except.ok.inj h
      have hdk := (dedupBindings_invariant t.addressColumn t.pidColumn (first :: rest) []).2
      have hperm : List.Perm (sortByHostPriority
          (dedupBindings t.addressColumn t.pidColumn (first :: rest) [])
          (fun b => jsToStr b.host))
          (dedupBindings t.addressColumn t.pidColumn (first :: rest) []) :=
        sortByCompare_perm _ _
      have hpw : (sortByHostPriority
          (dedupBindings t.addressColumn t.pidColumn (first :: rest) [])
          (fun b => jsToStr b.host)).Pairwise
          (fun b1 b2 => bindingKey b1.host b1.pid ≠ bindingKey b2.host b2.pid) :=
        (hperm.pairwise_iff (fun hxy => Ne.symm hxy)).2 hdk
      rw [hr] at hpw
      refine hpw.imp ?_
      intro b1 b2 hk hcon
      exact hk (by rw [hcon.1, hcon.2])
  · rw [if_neg hv] at h
    exact absurd h (by simp)

theorem c5_witness :
    List.Pairwise (fun b1 b2 => ¬(b1.host = b2.host ∧ b1.pid = b2.pid))
      [({ host := some "127.0.0.1", pid := 5 } : Binding)] :=
  c5_portBindings_pairwise_distinct 80 none c5Table
    [{ host := some "127.0.0.1", pid := 5 }] (by decide)

/-- C6: when at least one row matches the requested port and survives
filtering but every such row's PID column is unparseable, and the lsof
fallback either fails to run or extracts no PID from its output, `getPort`
resolves to `Except.ok none` (`undefined`), not an error — a fallback
failure is swallowed and never propagated. -/
theorem c6_fallback_failure_yields_absent (t : ParsedTable) (host : Option String)
    (lsofResult : Except Unit String) (platformHasLsof : Bool) (port : Int)
    (hv : 1 ≤ port ∧ port ≤ 65535)
    (hne : filterPortLines port.toNat t (createHostFilter host) ≠ [])
    (hp : ∀ l ∈ filterPortLines port.toNat t (createHostFilter host),
        parsePid (getTok l t.pidColumn) = none)
    (hf : lsofResult = Except.error () ∨
        ∀ out, lsofResult = Except.ok out → lsofExtract port.toNat out = none) :
    getPort port t host lsofResult platformHasLsof = Except.ok none := by
  unfold getPort
  rw [if_pos hv]
  split
  next heq => exact absurd heq hne
  next first rest heq =>
    split
    next pid hpid2 =>
      have hperm : List.Perm (sortByHostPriority (first :: rest)
          (fun l => jsToStr (getTok l t.addressColumn))) (first :: rest) :=
        sortByCompare_perm _ _
      cases hs : sortByHostPriority (first :: rest)
          (fun l => jsToStr (getTok l t.addressColumn)) with
      | nil =>
        have hlen := hperm.length_eq
        rw [hs] at hlen
        simp at hlen
      | cons s0 stail =>
        have hmem : s0 ∈ first :: rest := by
          apply hperm.mem_iff.1
          rw [hs]
          exact List.mem_cons_self _ _
        rw [hs] at hpid2
        simp only [List.headD_cons] at hpid2
        rw [hp s0 (by rw [heq]; exact hmem)] at hpid2
        exact Option.noConfusion hpid2
    next hpid2 =>
      cases platformHasLsof with
      | false => rfl
      | true =>
        cases lsofResult with
        | error e => rfl
        | ok out =>
          rcases hf with hf | hf
          · exact absurd hf (by simp)
          · have hext := hf out rfl
            simp [hext]

theorem c6_witness :
    getPort 80 c6Table none (Except.error ()) true = Except.ok none :=
  c6_fallback_failure_yields_absent c6Table none (Except.error ()) true 80
    (by decide) (by decide) (by decide) (Or.inl rfl)

theorem validatePortE_error_of_invalid (p : JsPort) (ctx : String)
    (h : invalidPortVal p = true) :
    ∃ msg, validatePortE p ctx = Except.error (JsError.typeError msg) := by
  cases p with
  | int n =>
    simp only [invalidPortVal, Bool.or_eq_true, decide_eq_true_eq] at h
    exact ⟨"Expected " ++ ctx ++ " between 1 and 65535, got " ++ toString n,
      by simp only [validatePortE]; rw [if_neg (by omega)]⟩
  | other r =>
    exact ⟨"Expected " ++ ctx ++ " between 1 and 65535, got " ++ r, rfl⟩

theorem validatePortE_ok_of_valid (p : JsPort) (ctx : String)
    (h : invalidPortVal p = false) :
    ∃ n, validatePortE p ctx = Except.ok n := by
  cases p with
  | int n =>
    simp only [invalidPortVal, Bool.or_eq_false_iff, decide_eq_false_iff_not] at h
    exact ⟨n, by simp only [validatePortE]; rw [if_pos (by omega)]⟩
  | other r => simp [invalidPortVal] at h

theorem validatePortsE_error_of_any (ps : List JsPort)
    (h : ps.any invalidPortVal = true) :
    ∃ msg, validatePortsE ps = Except.error (JsError.typeError msg) := by
  induction ps with
  | nil => simp at h
  | cons p ps ih =>
    simp only [List.any_cons, Bool.or_eq_true] at h
    by_cases hp : invalidPortVal p = true
    · obtain ⟨msg, hmsg⟩ := validatePortE_error_of_invalid p "port to be an integer" hp
      exact ⟨msg, by simp only [validatePortsE]; rw [hmsg]⟩
    · have hp' : invalidPortVal p = false := by
        revert hp; cases invalidPortVal p <;> simp
      obtain ⟨n, hn⟩ := validatePortE_ok_of_valid p "port to be an integer" hp'
      have hrest : ps.any invalidPortVal = true := by
        rcases h with h | h
        · exact absurd h hp
        · exact h
      obtain ⟨msg, hmsg⟩ := ih hrest
      refine ⟨msg, ?_⟩
      simp only [validatePortsE]
      rw [hn, hmsg]

/-- C7: for every `portToPid` argument containing an invalid port (not an
integer in 1..65535 — including 0, 70000, non-integers, and any array with
such an entry) or a non-string host, the call returns a validation
`TypeError` whose value does not depend on the enumeration outcome at all:
the result is this error for every possible `table` value, including a
failed enumeration command, so validation precedes the external command. -/
theorem c7_validation_before_enumeration (arg : PortToPidArg)
    (hbad : argHasBadInput arg = true) :
    ∃ msg, ∀ (table : Except JsError ParsedTable) (lsofResult : Except Unit String)
      (platformHasLsof : Bool),
      portToPid arg table lsofResult platformHasLsof =
        Except.error (JsError.typeError msg) := by
  cases arg with
  | single p =>
    obtain ⟨msg, hmsg⟩ := validatePortE_error_of_invalid p "a TCP/UDP port" hbad
    exact ⟨msg, fun table lr pl => by simp only [portToPid]; rw [hmsg]⟩
  | options p h =>
    simp only [argHasBadInput, Bool.or_eq_true] at hbad
    by_cases hp : invalidPortVal p = true
    · obtain ⟨msg, hmsg⟩ := validatePortE_error_of_invalid p "port to be an integer" hp
      exact ⟨msg, fun table lr pl => by simp only [portToPid]; rw [hmsg]⟩
    · have hp' : invalidPortVal p = false := by
        revert hp; cases invalidPortVal p <;> simp
      have hh : hostNonString h = true := by
        rcases hbad with hb | hb
        · exact absurd hb hp
        · exact hb
      obtain ⟨n, hn⟩ := validatePortE_ok_of_valid p "port to be an integer" hp'
      cases h with
      | undef => simp [hostNonString] at hh
      | str s => simp [hostNonString] at hh
      | other tn =>
        exact ⟨"Expected host to be a string, got " ++ tn,
          fun table lr pl => by simp only [portToPid]; rw [hn]; rfl⟩
  | ports ps =>
    obtain ⟨msg, hmsg⟩ := validatePortsE_error_of_any ps hbad
    exact ⟨msg, fun table lr pl => by simp only [portToPid]; rw [hmsg]⟩

theorem c7_witness :
    ∃ msg, ∀ (table : Except JsError ParsedTable) (lsofResult : Except Unit String)
      (platformHasLsof : Bool),
      portToPid (PortToPidArg.single (JsPort.int 0)) table lsofResult platformHasLsof =
        Except.error (JsError.typeError msg) :=
  c7_validation_before_enumeration (PortToPidArg.single (JsPort.int 0)) (by decide)
